import Mathlib

/-!
Shallow embedding of the Rican7/mmmdatastructures repository.

The package stringqueue (src/stringqueue/queue.go) implements a FIFO queue
of strings over a circular buffer.  Go slices are modelled as List String;
a slice access out of range is modelled by returning none (a Go panic).
Go machine integers (64-bit int) are modelled as Int with explicit
wraparound where overflow can occur (the capacity doubling).

The package ints/maxheap is present in the repository only through its test
file, so the heap operations are modelled from the specification (see the
MaxHeap section below).
-/

namespace stringqueue

/-- The Go struct IntQueue from src/stringqueue/queue.go. -/
structure IntQueue where
  data : List String
  head : Int
  tail : Int
  capacity : Int
  length : Int
deriving DecidableEq, Repr

/-- Go slice read q.data[i]: none models the index-out-of-range panic. -/
def getElemPanic (l : List String) (i : Int) : Option String :=
  if h : 0 ≤ i ∧ i.toNat < l.length then some (l.get ⟨i.toNat, h.2⟩) else none

/-- Go slice write q.data[i] = s: none models the index-out-of-range panic. -/
def setElemPanic (l : List String) (i : Int) (s : String) : Option (List String) :=
  if 0 ≤ i ∧ i.toNat < l.length then some (l.set i.toNat s) else none

/-- Two to the 63rd, the bound of the signed 64-bit Go int. -/
def intBound : Int := 2 ^ 63

/-- Wraparound of a mathematical integer into a signed 64-bit Go int. -/
def wrap64 (n : Int) : Int := (n + intBound) % (2 * intBound) - intBound

/-- The Go expression q.capacity * 2 with 64-bit wraparound. -/
def goDouble (c : Int) : Int := wrap64 (c * 2)

/-- DefaultCapacity from the source. -/
def DefaultCapacity : Int := 32

/-- NewWithCapacity from the source: data holds capacity zero-value strings,
head and tail start at -1, length at 0. -/
def NewWithCapacity (capacity : Int) : IntQueue :=
  { data := List.replicate capacity.toNat ""
    head := -1
    tail := -1
    capacity := capacity
    length := 0 }

/-- New from the source: a queue of the default capacity 32. -/
def New : IntQueue := NewWithCapacity DefaultCapacity

/-- Dequeue from the source.  Result none is a panic; otherwise the returned
pair carries the returned string (the zero value "" on error), the error
flag (true when the Go error is non-nil), and the post-state.  On the error
branch the method returns before mutating, so the post-state is the receiver. -/
def Dequeue (q : IntQueue) : Option (String × Bool × IntQueue) :=
  if q.length - 1 < 0 then
    some ("", true, q)
  else
    let len1 := q.length - 1
    let t0 := q.tail + 1
    let t1 := if t0 = q.capacity then 0 else t0
    match getElemPanic q.data t1 with
    | none => none
    | some v => some (v, false, { q with length := len1, tail := t1 })

/-- The drain loop of resize:
for err = nil; err == nil; i, err = q.Dequeue() { new_data = append(new_data, i) }.
The body runs before each dequeue, so the zero value of i is appended first.
The fuel argument only bounds the iteration count so the definition is total;
resize passes enough fuel for the loop to reach its exit condition. -/
def drainLoop : Nat → IntQueue → List String → String → Option (IntQueue × List String)
  | 0, _, _, _ => none
  | fuel + 1, q, acc, i =>
    let acc1 := acc ++ [i]
    match Dequeue q with
    | none => none
    | some (_, true, q1) => some (q1, acc1)
    | some (v, false, q1) => drainLoop fuel q1 acc1 v

/-- resize from the source.  new_data starts as make([]string, new_capacity),
a list of new_capacity zero values, and the drain loop appends after them.
After the loop the code reads the now-drained q.length (0) to set head. -/
def resize (q : IntQueue) (new_capacity : Int) : Option IntQueue :=
  if new_capacity < 0 then none
  else
    match drainLoop (q.length.toNat + 1) q (List.replicate new_capacity.toNat "") "" with
    | none => none
    | some (q1, new_data) =>
      some { q1 with
              head := q1.length - 1
              tail := 0
              capacity := new_capacity
              data := new_data }

/-- The unconditional tail of Enqueue: length++, head++ with wrap at
capacity, store at data[head]. -/
def enqueueStore (q : IntQueue) (i : String) : Option IntQueue :=
  let q1 := { q with length := q.length + 1 }
  let h0 := q1.head + 1
  let h1 := if h0 = q1.capacity then 0 else h0
  match setElemPanic q1.data h1 i with
  | none => none
  | some d => some { q1 with head := h1, data := d }

/-- Enqueue from the source.  Result none is a panic; otherwise the Bool is
the error flag (true exactly when the method returns the capacity error,
in which case it returns before mutating anything). -/
def Enqueue (q : IntQueue) (i : String) : Option (Bool × IntQueue) :=
  if q.length + 1 > q.capacity then
    let new_capacity := goDouble q.capacity
    if new_capacity < 0 then
      some (true, q)
    else
      match resize q new_capacity with
      | none => none
      | some q1 =>
        match enqueueStore q1 i with
        | none => none
        | some q2 => some (false, q2)
  else
    match enqueueStore q i with
    | none => none
    | some q2 => some (false, q2)

/-- A client operation on the queue. -/
inductive Op where
  | enq (s : String)
  | deq
deriving DecidableEq, Repr

/-- The visible outcome of one operation: the error flag of an Enqueue, or
the returned string and error flag of a Dequeue. -/
inductive Res where
  | enqR (err : Bool)
  | deqR (s : String) (err : Bool)
deriving DecidableEq, Repr

/-- Run a list of operations, collecting each visible outcome; none models
a panic somewhere in the sequence. -/
def runOut (q : IntQueue) : List Op → Option (List Res × IntQueue)
  | [] => some ([], q)
  | Op.enq s :: ops =>
    match Enqueue q s with
    | none => none
    | some (e, q1) =>
      match runOut q1 ops with
      | none => none
      | some (rs, qf) => some (Res.enqR e :: rs, qf)
  | Op.deq :: ops =>
    match Dequeue q with
    | none => none
    | some (v, e, q1) =>
      match runOut q1 ops with
      | none => none
      | some (rs, qf) => some (Res.deqR v e :: rs, qf)

/-- The representation invariant claimed by the spec, in positional form:
0 ≤ length ≤ capacity, and when the queue is nonempty the run of length
live slots that starts at index (tail + 1) mod capacity ends exactly at
head, i.e. (tail + length) ≡ head (mod capacity). -/
def CircInv (q : IntQueue) : Prop :=
  0 ≤ q.length ∧ q.length ≤ q.capacity ∧
    (1 ≤ q.length → (q.tail + q.length) % q.capacity = q.head % q.capacity)

instance : DecidablePred CircInv := fun q => by
  unfold CircInv; infer_instance

/-- The structural well-formedness invariant used for the panic-freedom
proof: positive capacity fitting a 64-bit Go int, a backing slice at least
capacity long, head and tail in [-1, capacity), nonnegative length. -/
def Inv (q : IntQueue) : Prop :=
  1 ≤ q.capacity ∧ q.capacity < intBound ∧ q.capacity ≤ (q.data.length : Int) ∧
    -1 ≤ q.head ∧ q.head < q.capacity ∧ -1 ≤ q.tail ∧ q.tail < q.capacity ∧
    0 ≤ q.length

instance : DecidablePred Inv := fun q => by
  unfold Inv; infer_instance

/-- 33 distinct strings: "a", "aa", ..., 33 letters long. -/
def vals33 : List String :=
  (List.range 33).map (fun n => (List.replicate (n + 1) 'a').asString)

end stringqueue

namespace maxheap

/-- Modelled from the spec: the ints/maxheap implementation file is not in
the repository snapshot (only its test file is), so the heap state is taken
from the specification: a backing sequence of ints whose element 0 is an
unused sentinel, the root at index 1, and a size counting the elements
without the sentinel. -/
structure MaxHeap where
  data : List Int
  size : Nat
deriving DecidableEq, Repr

/-- Modelled from the spec: Construct() gives an empty heap of size 0 whose
backing sequence holds only the sentinel slot. -/
def New : MaxHeap := { data := [0], size := 0 }

/-- Swap the elements at two indices of the backing sequence. -/
def swapAt (l : List Int) (i j : Nat) : List Int :=
  let a := l.getD i 0
  let b := l.getD j 0
  (l.set i b).set j a

/-- Modelled from the spec: the sift-up loop — while the node at index i
exceeds its parent at index i / 2, swap with the parent; stop at the root.
The first argument only bounds the iteration count so the definition is
structurally recursive; the index strictly decreases each iteration, so
starting the bound at the index itself always reaches the loop exit. -/
def siftUpLoop : Nat → List Int → Nat → List Int
  | 0, d, _ => d
  | fuel + 1, d, i =>
    if 2 ≤ i ∧ d.getD (i / 2) 0 < d.getD i 0 then
      siftUpLoop fuel (swapAt d (i / 2) i) (i / 2)
    else d

/-- Modelled from the spec: sift-up from index i. -/
def siftUp (d : List Int) (i : Nat) : List Int := siftUpLoop i d i

/-- Modelled from the spec: Insert(value) appends the value at index
size + 1, increments size, and sifts the new node up. -/
def Insert (h : MaxHeap) (v : Int) : MaxHeap :=
  { data := siftUp (h.data ++ [v]) (h.size + 1), size := h.size + 1 }

/-- Modelled from the spec: sift-down — compare the node at index i with
its children 2i and 2i + 1 within [1, size], swap with the larger child
when that child exceeds the node, stop otherwise.  When both children are
equal the left child is chosen, an allowed tie-break. -/
def siftDownLoop : Nat → List Int → Nat → Nat → List Int
  | 0, d, _, _ => d
  | fuel + 1, d, size, i =>
    if 1 ≤ i ∧ 2 * i ≤ size then
      let c :=
        if 2 * i + 1 ≤ size ∧ d.getD (2 * i) 0 < d.getD (2 * i + 1) 0 then
          2 * i + 1
        else 2 * i
      if d.getD i 0 < d.getD c 0 then
        siftDownLoop fuel (swapAt d i c) size c
      else d
    else d

/-- Modelled from the spec: sift-down from index i.  The loop index
strictly increases while bounded by size, so size + 1 iterations always
reach the loop exit. -/
def siftDown (d : List Int) (size i : Nat) : List Int :=
  siftDownLoop (size + 1) d size i

/-- Modelled from the spec: Peek() fails when the heap is empty and
otherwise returns the root value without mutation.  none models the
HeapEmpty error. -/
def Peek (h : MaxHeap) : Option Int :=
  if h.size = 0 then none else some (h.data.getD 1 0)

/-- Modelled from the spec: Delete() fails on an empty heap; otherwise it
returns the root, moves the last element into the root slot, truncates the
backing sequence, decrements size and sifts the root down. -/
def Delete (h : MaxHeap) : Option (Int × MaxHeap) :=
  if h.size = 0 then none
  else
    let root := h.data.getD 1 0
    let last := h.data.getD h.size 0
    let d1 := (h.data.set 1 last).take h.size
    let size1 := h.size - 1
    some (root, { data := siftDown d1 size1 1, size := size1 })

/-- Delete repeatedly, collecting the returned values; none if any Delete
reports the heap empty. -/
def deleteTimes : Nat → MaxHeap → Option (List Int × MaxHeap)
  | 0, h => some ([], h)
  | n + 1, h =>
    match Delete h with
    | none => none
    | some (v, h1) =>
      match deleteTimes n h1 with
      | none => none
      | some (vs, hf) => some (v :: vs, hf)

/-- The heap grown by the insertions of the concrete spec scenario. -/
def heapScenario : MaxHeap := Insert (Insert (Insert (Insert New 5) 10) 20) 7

end maxheap

namespace stringqueue

/-- C1: the claim fails on the code.  Evaluated on the capacity-1 queue
holding the single element "a" (the state Enqueue reaches just before the
triggering store), resize to capacity 2 produces a state whose length is 0
rather than 1, and whose immediate Dequeue reports the queue empty instead
of returning "a": the live element is not retrievable and the length is
not preserved.  The element ends up at index 3 of the new backing slice
because the drain loop appends after the make-initialized zero values, and
head is set from the already-drained length. -/
theorem C1_resize_drops_elements :
    resize (IntQueue.mk ["a"] 0 (-1) 1 1) 2 =
      some (IntQueue.mk ["", "", "", "a"] (-1) 0 2 0) ∧
    Dequeue (IntQueue.mk ["", "", "", "a"] (-1) 0 2 0) =
      some ("", true, IntQueue.mk ["", "", "", "a"] (-1) 0 2 0) := by
  exact ⟨rfl, rfl⟩

/-- C3: the claim fails on the code.  With construction capacity 1 and the
two-element sequence ["a", "b"], the two enqueues succeed (the second one
resizing), but the two dequeues then return the empty string and a
queue-empty error instead of "a" followed by "b". -/
theorem C3_fifo_fails :
    (runOut (NewWithCapacity 1)
        [Op.enq "a", Op.enq "b", Op.deq, Op.deq]).map Prod.fst =
      some [Res.enqR false, Res.enqR false,
            Res.deqR "" false, Res.deqR "" true] := by
  rfl

/-- C4: the claim fails on the code.  Both enqueues on the capacity-1 queue
succeed, after which two elements have been enqueued and none dequeued, yet
the resulting state has length 1 (so length does not count the live
elements) and violates the circular-run invariant: head = 0 although
(tail + length) mod capacity = 1. -/
theorem C4_invariant_broken :
    runOut (NewWithCapacity 1) [Op.enq "a", Op.enq "b"] =
      some ([Res.enqR false, Res.enqR false],
        IntQueue.mk ["b", "", "", "a"] 0 0 2 1) ∧
    ¬ CircInv (IntQueue.mk ["b", "", "", "a"] 0 0 2 1) := by
  exact ⟨rfl, by decide⟩

/-- C5: the claim fails on the code.  Resizing the full capacity-2 queue
["a", "b"] to capacity 4 yields head = -1, not head = length - 1 = 1 for
the pre-drain length 2, because the code reads q.length only after the
drain loop has decremented it to 0; the elements also do not form a 0-based
contiguous run (they sit at indices 5 and 6). -/
theorem C5_resize_head_wrong :
    resize (IntQueue.mk ["a", "b"] 1 (-1) 2 2) 4 =
      some (IntQueue.mk ["", "", "", "", "", "a", "b"] (-1) 0 4 0) := by
  rfl

set_option maxRecDepth 40000 in
/-- C2: the claim fails on the code.  Enqueueing the 33 distinct strings of
vals33 on a capacity-32 queue succeeds and the capacity does become 64, but
the very next Dequeue returns the empty string instead of the first
enqueued value, and the Dequeue after it already fails with the queue-empty
error, because the triggering resize dropped the 32 elements it drained. -/
theorem C2_scenario_fails :
    vals33.length = 33 ∧ vals33.Nodup ∧
    (runOut (NewWithCapacity 32)
        (vals33.map Op.enq ++ [Op.deq, Op.deq])).map
        (fun p => (p.1.take 33, p.1.drop 33, p.2.capacity)) =
      some (List.replicate 33 (Res.enqR false),
            [Res.deqR "" false, Res.deqR "" true], 64) := by
  refine ⟨rfl, by decide, by rfl⟩

end stringqueue

namespace maxheap

/-- C9: on a fresh max-heap, inserting 5, 10, 20, 7 makes Peek return 20,
the next four Delete calls return 20, 10, 7, 5 in that order leaving the
empty heap, and a further Delete fails with the heap-empty error.  Settled
against the heap operations modelled from the spec, since the maxheap
implementation file is absent from the repository snapshot. -/
theorem C9_heap_scenario :
    Peek heapScenario = some 20 ∧
    deleteTimes 4 heapScenario = some ([20, 10, 7, 5], MaxHeap.mk [0] 0) ∧
    Delete (MaxHeap.mk [0] 0) = none := by
  exact ⟨rfl, rfl, rfl⟩

end maxheap

namespace stringqueue

theorem goDouble_small {c : Int} (h0 : 0 ≤ c) (h1 : c < 2 ^ 62) :
    goDouble c = 2 * c := by
  have e62 : (2 : Int) ^ 62 = 4611686018427387904 := by norm_num
  have e63 : intBound = 9223372036854775808 := by norm_num [intBound]
  rw [e62] at h1
  simp only [goDouble, wrap64, e63]
  omega

theorem goDouble_big {c : Int} (h0 : 2 ^ 62 ≤ c) (h1 : c < intBound) :
    goDouble c < 0 := by
  have e62 : (2 : Int) ^ 62 = 4611686018427387904 := by norm_num
  have e63 : intBound = 9223372036854775808 := by norm_num [intBound]
  rw [e62] at h0
  rw [e63] at h1
  simp only [goDouble, wrap64, e63]
  omega

/-- C6: Enqueue returns the capacity-exceeded error with the receiver state
unchanged exactly when the queue is full (length + 1 > capacity) and the
64-bit wraparound doubling of the capacity is negative; moreover any error
result of Enqueue carries the unchanged state and can only arise under that
condition (so on every error the value was not stored and no field moved). -/
theorem C6_enqueue_capacity_error (q : IntQueue) (s : String) :
    (Enqueue q s = some (true, q) ↔
      q.capacity < q.length + 1 ∧ goDouble q.capacity < 0) ∧
    (∀ b q1, Enqueue q s = some (b, q1) → b = true →
      q1 = q ∧ q.capacity < q.length + 1 ∧ goDouble q.capacity < 0) := by
  have key : ∀ b q1, Enqueue q s = some (b, q1) → b = true →
      q1 = q ∧ q.capacity < q.length + 1 ∧ goDouble q.capacity < 0 := by
    intro b q1 h hb
    subst hb
    by_cases hful : q.capacity < q.length + 1
    · by_cases hneg : goDouble q.capacity < 0
      · simp only [Enqueue, gt_iff_lt, if_pos hful, if_pos hneg,
          Option.some.injEq, Prod.mk.injEq] at h
        exact ⟨h.2.symm, hful, hneg⟩
      · simp only [Enqueue, gt_iff_lt, if_pos hful, if_neg hneg] at h
        rcases hres : resize q (goDouble q.capacity) with _ | q2
        · simp only [hres] at h
          exact absurd h (by simp)
        · simp only [hres] at h
          rcases hst : enqueueStore q2 s with _ | q3 <;>
            simp only [hst] at h <;> simp at h
    · simp only [Enqueue, gt_iff_lt, if_neg hful] at h
      rcases hst : enqueueStore q s with _ | q3 <;> simp only [hst] at h <;>
        simp at h
  refine ⟨⟨fun h => (key true q h rfl).2, fun h => ?_⟩, key⟩
  simp only [Enqueue, gt_iff_lt, if_pos h.1, if_pos h.2]

/-- Witness for C6: a full queue whose capacity occupies bit 62, so that
doubling wraps negative; Enqueue reports the error and returns the state
unchanged. -/
theorem C6_witness :
    Enqueue (IntQueue.mk [] 0 0 (2 ^ 62) (2 ^ 62)) "x" =
      some (true, IntQueue.mk [] 0 0 (2 ^ 62) (2 ^ 62)) :=
  (C6_enqueue_capacity_error (IntQueue.mk [] 0 0 (2 ^ 62) (2 ^ 62)) "x").1.mpr
    (by constructor <;> decide)

theorem dequeue_empty_eq (q : IntQueue) (h : q.length - 1 < 0) :
    Dequeue q = some ("", true, q) := by
  unfold Dequeue
  rw [if_pos h]

theorem dequeue_succ_of_inv (q : IntQueue) (hq : Inv q) (hlen : 1 ≤ q.length) :
    ∃ v q1, Dequeue q = some (v, false, q1) ∧ Inv q1 ∧
      q1.length = q.length - 1 ∧ q1.capacity = q.capacity ∧
      q1.data = q.data ∧ q1.head = q.head := by
  obtain ⟨h1, h2, h3, h4, h5, h6, h7, h8⟩ := hq
  have hnot : ¬ q.length - 1 < 0 := by omega
  set t1 := if q.tail + 1 = q.capacity then 0 else q.tail + 1 with ht1
  have hb : 0 ≤ t1 ∧ t1 < q.capacity := by
    rw [ht1]; split <;> omega
  have hlt : t1.toNat < q.data.length := by omega
  have hgeteq : getElemPanic q.data t1 = some (q.data.get ⟨t1.toNat, hlt⟩) := by
    unfold getElemPanic
    rw [dif_pos ⟨hb.1, hlt⟩]
  refine ⟨q.data.get ⟨t1.toNat, hlt⟩,
    { q with length := q.length - 1, tail := t1 }, ?_, ?_, rfl, rfl, rfl, rfl⟩
  · show Dequeue q = _
    unfold Dequeue
    rw [if_neg hnot]
    simp only [← ht1, hgeteq]
  · exact ⟨h1, h2, h3, h4, h5, show -1 ≤ t1 by omega, hb.2, show 0 ≤ q.length - 1 by omega⟩

/-- C7: under the structural invariant, Dequeue fails exactly when length
is 0; every failing Dequeue returns the zero-value string together with the
error and the entirely unchanged state, and every Dequeue on a nonempty
queue succeeds and decrements length by one. -/
theorem C7_dequeue_error_iff (q : IntQueue) (hq : Inv q) :
    (Dequeue q = some ("", true, q) ↔ q.length = 0) ∧
    (∀ v e q1, Dequeue q = some (v, e, q1) → e = true → v = "" ∧ q1 = q) ∧
    (1 ≤ q.length → ∃ v q1, Dequeue q = some (v, false, q1) ∧
      q1.length = q.length - 1) := by
  have h8 : 0 ≤ q.length := hq.2.2.2.2.2.2.2
  refine ⟨⟨?_, ?_⟩, ?_, ?_⟩
  · intro h
    by_contra hne
    obtain ⟨v, q1, hd, _⟩ := dequeue_succ_of_inv q hq (by omega)
    rw [hd] at h
    simp at h
  · intro h0
    exact dequeue_empty_eq q (by omega)
  · intro v e q1 h he
    subst he
    by_cases hpos : 1 ≤ q.length
    · obtain ⟨v2, q2, hd, _⟩ := dequeue_succ_of_inv q hq hpos
      rw [hd] at h
      simp at h
    · rw [dequeue_empty_eq q (by omega)] at h
      simp only [Option.some.injEq, Prod.mk.injEq] at h
      exact ⟨h.1.symm, h.2.2.symm⟩
  · intro hpos
    obtain ⟨v, q1, hd, _, hl, _⟩ := dequeue_succ_of_inv q hq hpos
    exact ⟨v, q1, hd, hl⟩

/-- Witness for C7: the fresh capacity-1 queue satisfies the invariant, has
length 0, and its Dequeue reports the queue empty with the state
unchanged. -/
theorem C7_witness :
    Dequeue (NewWithCapacity 1) = some ("", true, NewWithCapacity 1) :=
  (C7_dequeue_error_iff (NewWithCapacity 1) (by decide)).1.mpr (by decide)

theorem drainLoop_inv :
    ∀ (fuel : Nat) (q : IntQueue) (acc : List String) (i : String),
      Inv q → q.length.toNat < fuel →
      ∃ q1 acc1, drainLoop fuel q acc i = some (q1, acc1) ∧
        q1.length = 0 ∧ q1.capacity = q.capacity ∧ Inv q1 ∧
        acc.length ≤ acc1.length := by
  intro fuel
  induction fuel with
  | zero => intro q acc i hq hf; omega
  | succ f ih =>
    intro q acc i hq hf
    by_cases hlen : 1 ≤ q.length
    · obtain ⟨v, q1, hd, hinv1, hl1, hc1, _, _⟩ := dequeue_succ_of_inv q hq hlen
      have hstep : drainLoop (f + 1) q acc i = drainLoop f q1 (acc ++ [i]) v := by
        simp only [drainLoop, hd]
      obtain ⟨q2, acc2, h2, hl2, hc2, hinv2, hlen2⟩ :=
        ih q1 (acc ++ [i]) v hinv1 (by omega)
      refine ⟨q2, acc2, hstep ▸ h2, hl2, by rw [hc2, hc1], hinv2, ?_⟩
      calc acc.length ≤ (acc ++ [i]).length := by simp
        _ ≤ acc2.length := hlen2
    · have h8 : 0 ≤ q.length := hq.2.2.2.2.2.2.2
      have h0 : q.length = 0 := by omega
      have hd : Dequeue q = some ("", true, q) := dequeue_empty_eq q (by omega)
      refine ⟨q, acc ++ [i], ?_, h0, rfl, hq, by simp⟩
      simp only [drainLoop, hd]

theorem resize_inv (q : IntQueue) (nc : Int) (hq : Inv q)
    (h1 : 1 ≤ nc) (h2 : nc < intBound) :
    ∃ q1, resize q nc = some q1 ∧ Inv q1 ∧ q1.length = 0 ∧
      q1.head = -1 ∧ q1.tail = 0 ∧ q1.capacity = nc := by
  obtain ⟨qd, acc1, hdl, hl0, hc, hinvd, hlen⟩ :=
    drainLoop_inv (q.length.toNat + 1) q (List.replicate nc.toNat "") ""
      hq (by omega)
  have hacc : nc ≤ (acc1.length : Int) := by
    have := hlen
    simp only [List.length_replicate] at this
    omega
  refine ⟨({ qd with head := qd.length - 1, tail := 0, capacity := nc, data := acc1 }), ?_, ?_, hl0, ?_, rfl, rfl⟩
  · unfold resize
    rw [if_neg (by omega), hdl]
  · exact ⟨h1, h2, hacc, show -1 ≤ qd.length - 1 by omega,
      show qd.length - 1 < nc by omega, show (-1 : Int) ≤ 0 by omega,
      show (0 : Int) < nc by omega, show (0 : Int) ≤ qd.length by omega⟩
  · show qd.length - 1 = -1
    omega

theorem resize_capacity {q : IntQueue} {nc : Int} {q1 : IntQueue}
    (h : resize q nc = some q1) : q1.capacity = nc := by
  unfold resize at h
  split at h
  · exact absurd h (by simp)
  · rcases hd : drainLoop (q.length.toNat + 1) q (List.replicate nc.toNat "") ""
      with _ | p <;> rw [hd] at h
    · exact absurd h (by simp)
    · simp only [Option.some.injEq] at h
      rw [← h]

theorem enqueueStore_inv (q : IntQueue) (s : String) (hq : Inv q) :
    ∃ q1, enqueueStore q s = some q1 ∧ Inv q1 ∧
      q1.capacity = q.capacity ∧ q1.length = q.length + 1 := by
  obtain ⟨h1, h2, h3, h4, h5, h6, h7, h8⟩ := hq
  set hd1 := if q.head + 1 = q.capacity then 0 else q.head + 1 with hh1
  have hb : 0 ≤ hd1 ∧ hd1 < q.capacity := by
    rw [hh1]; split <;> omega
  have hlt : hd1.toNat < q.data.length := by omega
  have hset : setElemPanic q.data hd1 s = some (q.data.set hd1.toNat s) := by
    unfold setElemPanic
    rw [if_pos ⟨hb.1, hlt⟩]
  refine ⟨({ q with length := q.length + 1, head := hd1, data := q.data.set hd1.toNat s }), ?_, ?_, rfl, rfl⟩
  · show enqueueStore q s = _
    unfold enqueueStore
    simp only [← hh1, hset]
  · refine ⟨h1, h2, ?_, show -1 ≤ hd1 by omega, hb.2, h6, h7,
      show 0 ≤ q.length + 1 by omega⟩
    show q.capacity ≤ ((q.data.set hd1.toNat s).length : Int)
    rw [List.length_set]
    exact h3

theorem enqueueStore_capacity {q : IntQueue} {s : String} {q1 : IntQueue}
    (h : enqueueStore q s = some q1) : q1.capacity = q.capacity := by
  unfold enqueueStore at h
  rcases hs : setElemPanic q.data
      (if q.head + 1 = q.capacity then 0 else q.head + 1) s with _ | d <;>
    simp only [hs] at h
  · exact absurd h (by simp)
  · simp only [Option.some.injEq] at h
    rw [← h]

theorem enqueue_inv (q : IntQueue) (s : String) (hq : Inv q) :
    ∃ b q1, Enqueue q s = some (b, q1) ∧ Inv q1 := by
  by_cases hful : q.capacity < q.length + 1
  · by_cases hneg : goDouble q.capacity < 0
    · exact ⟨true, q, by simp only [Enqueue, gt_iff_lt, if_pos hful,
        if_pos hneg], hq⟩
    · have h1 := hq.1
      have h2 := hq.2.1
      have hc62 : q.capacity < 2 ^ 62 := by
        by_contra hge
        push_neg at hge
        exact hneg (goDouble_big hge h2)
      have hdd : goDouble q.capacity = 2 * q.capacity :=
        goDouble_small (by omega) hc62
      have e62 : (2 : Int) ^ 62 = 4611686018427387904 := by norm_num
      have e63 : intBound = 9223372036854775808 := by norm_num [intBound]
      obtain ⟨q1, hres, hinv1, _, _, _⟩ :=
        resize_inv q (goDouble q.capacity) hq (by omega) (by omega)
      obtain ⟨q2, hst, hinv2, _, _⟩ := enqueueStore_inv q1 s hinv1
      exact ⟨false, q2, by simp only [Enqueue, gt_iff_lt, if_pos hful,
        if_neg hneg, hres, hst], hinv2⟩
  · obtain ⟨q2, hst, hinv2, _, _⟩ := enqueueStore_inv q s hq
    exact ⟨false, q2, by simp only [Enqueue, gt_iff_lt, if_neg hful, hst],
      hinv2⟩

theorem newWithCapacity_inv (c : Int) (h1 : 1 ≤ c) (h2 : c < intBound) :
    Inv (NewWithCapacity c) := by
  refine ⟨h1, h2, ?_, show (-1 : Int) ≤ -1 by omega, show (-1 : Int) < c by omega,
    show (-1 : Int) ≤ -1 by omega, show (-1 : Int) < c by omega,
    show (0 : Int) ≤ 0 by omega⟩
  show c ≤ ((List.replicate c.toNat "").length : Int)
  rw [List.length_replicate]
  omega

theorem runOut_isSome (ops : List Op) :
    ∀ q, Inv q → ∃ rs q1, runOut q ops = some (rs, q1) ∧ Inv q1 := by
  induction ops with
  | nil => intro q hq; exact ⟨[], q, rfl, hq⟩
  | cons op ops ih =>
    intro q hq
    cases op with
    | enq s =>
      obtain ⟨b, q1, he, hinv1⟩ := enqueue_inv q s hq
      obtain ⟨rs, qf, hr, hinvf⟩ := ih q1 hinv1
      exact ⟨Res.enqR b :: rs, qf, by simp only [runOut, he, hr], hinvf⟩
    | deq =>
      have h8 : 0 ≤ q.length := hq.2.2.2.2.2.2.2
      by_cases hlen : 1 ≤ q.length
      · obtain ⟨v, q1, hd, hinv1, _, _, _, _⟩ := dequeue_succ_of_inv q hq hlen
        obtain ⟨rs, qf, hr, hinvf⟩ := ih q1 hinv1
        exact ⟨Res.deqR v false :: rs, qf, by simp only [runOut, hd, hr],
          hinvf⟩
      · have hd : Dequeue q = some ("", true, q) := dequeue_empty_eq q (by omega)
        obtain ⟨rs, qf, hr, hinvf⟩ := ih q hq
        exact ⟨Res.deqR "" true :: rs, qf, by simp only [runOut, hd, hr],
          hinvf⟩

/-- C10: for every construction capacity c with 1 ≤ c (and c a 64-bit Go
int), every sequence of Enqueue and Dequeue calls runs without any
out-of-range slice access — runOut models every slice read and write and
returns none exactly when one is out of bounds; and the precondition is
necessary: with capacity 0 the second Enqueue panics inside the resize
drain loop, which reads index 1 of the one-element backing slice. -/
theorem C10_no_panic :
    (∀ c : Int, 1 ≤ c → c < intBound → ∀ ops : List Op,
      (runOut (NewWithCapacity c) ops).isSome = true) ∧
    runOut (NewWithCapacity 0) [Op.enq "a", Op.enq "b"] = none := by
  constructor
  · intro c h1 h2 ops
    obtain ⟨rs, q1, hr, _⟩ :=
      runOut_isSome ops (NewWithCapacity c) (newWithCapacity_inv c h1 h2)
    rw [hr]
    rfl
  · rfl

/-- Witness for C10: a concrete in-bounds run at capacity 1, and the
concrete capacity-0 panic. -/
theorem C10_witness :
    (runOut (NewWithCapacity 1) [Op.enq "x", Op.deq, Op.deq]).isSome = true ∧
    runOut (NewWithCapacity 0) [Op.enq "a", Op.enq "b"] = none :=
  ⟨C10_no_panic.1 1 (by decide) (by decide) [Op.enq "x", Op.deq, Op.deq],
   C10_no_panic.2⟩

/-- C8: whenever Enqueue is called on a full queue (length + 1 > capacity
for a nonnegative 64-bit capacity) and the doubling does not overflow,
every completed Enqueue leaves the capacity field at exactly twice the
pre-grow capacity. -/
theorem C8_capacity_doubles (q : IntQueue) (s : String)
    (hful : q.capacity < q.length + 1) (hc0 : 0 ≤ q.capacity)
    (hc1 : q.capacity < intBound) (hnn : 0 ≤ goDouble q.capacity) :
    ∀ b q1, Enqueue q s = some (b, q1) → q1.capacity = 2 * q.capacity := by
  have hc62 : q.capacity < 2 ^ 62 := by
    by_contra hge
    push_neg at hge
    have := goDouble_big hge hc1
    omega
  have hdd : goDouble q.capacity = 2 * q.capacity := goDouble_small hc0 hc62
  intro b q1 h
  have hneg : ¬ goDouble q.capacity < 0 := by omega
  simp only [Enqueue, gt_iff_lt, if_pos hful, if_neg hneg] at h
  rcases hres : resize q (goDouble q.capacity) with _ | q2
  · simp only [hres] at h
    exact absurd h (by simp)
  · simp only [hres] at h
    rcases hst : enqueueStore q2 s with _ | q3
    · simp only [hst] at h
      exact absurd h (by simp)
    · simp only [hst, Option.some.injEq, Prod.mk.injEq] at h
      have hcap2 := resize_capacity hres
      have hcap3 := enqueueStore_capacity hst
      rw [← h.2, hcap3, hcap2, hdd]

/-- Witness for C8: enqueueing onto the full capacity-1 queue holding "a"
doubles the capacity field to 2. -/
theorem C8_witness :
    (IntQueue.mk ["b", "", "", "a"] 0 0 2 1).capacity =
      2 * (IntQueue.mk ["a"] 0 (-1) 1 1).capacity :=
  C8_capacity_doubles (IntQueue.mk ["a"] 0 (-1) 1 1) "b" (by decide)
    (by decide) (by decide) (by decide) false
    (IntQueue.mk ["b", "", "", "a"] 0 0 2 1) rfl

end stringqueue
